import Mathlib

/-!
Shallow embedding of `src/scripts/hf_grass.py` (Hugging Face activity
heatmap generator).

Modelling conventions:
- Calendar dates are proleptic-Gregorian ordinals, modelled as `Int`
  (Python `date.toordinal()`; ordinal 1 is a Monday, and
  `date.weekday()` is Monday = 0 .. Sunday = 6, i.e. `(ordinal - 1) % 7`).
- Feed records (`dict` values in Python) become the `Item` structure;
  a field that may be absent is an `Option String`, and Python truthiness
  of a string field (`if value:`) is `truthyS` (absent or empty is falsy).
- `datetime.fromisoformat` (the Python standard library, external to the
  repository) is modelled as an abstract parameter
  `parse : String → Option Int` mapping a timestamp string to the local
  ordinal date of `parse_time`, with `none` standing for the
  `ValueError` it raises on a string that is not valid ISO-8601.
  A Python function that can propagate that exception is embedded in
  `Except Unit`.
- The network fetch (`fetch_recent_activity`) is modelled as an abstract
  feed `Option String → Page` from the request cursor to the decoded
  response page.
- Python float arithmetic in `color_index` (`count / max_count`,
  `math.ceil`) is modelled exactly over `ℚ`.
-/

set_option autoImplicit false

namespace HfGrass

/-- A feed record (a Python dict) with the fields the script reads.
`none` models an absent key. -/
structure Item where
  eventId : Option String := none
  time : Option String := none
  type : Option String := none
  repoId : Option String := none
  targetType : Option String := none
  deriving DecidableEq, Repr

/-- An element of the `recentActivity` batch: either a dict record or a
non-dict JSON value (skipped by the `isinstance` check in the loop). -/
inductive Entry where
  | dict (it : Item)
  | nonDict
  deriving DecidableEq, Repr

/-- Python truthiness of an optional string: `None` and `""` are falsy. -/
def truthyS : Option String → Bool
  | none => false
  | some s => s != ""

/-- Embedding of `dedupe_key` (src lines 158-168): the `eventId` when
truthy, else the composite of the time, type, repoId and targetType
fields, each defaulting to the empty string. -/
def dedupe_key (it : Item) : String :=
  if truthyS it.eventId then
    "event:" ++ it.eventId.getD ""
  else
    it.time.getD "" ++ "|" ++ it.type.getD "" ++ "|"
      ++ it.repoId.getD "" ++ "|" ++ it.targetType.getD ""

/-! ### Aggregation (`aggregate_stats`, src lines 221-241) -/

/-- The per-date statistics value of the `stats` dict:
`{"count": 0, "types": set()}` with the count incremented per event and
the type labels collected in a set. -/
structure DayStat where
  count : Nat
  types : Finset String
  deriving DecidableEq

/-- The `stats` dict, as an insertion-ordered association list from the
local ordinal date to its `DayStat`. -/
abbrev AggStats := List (Int × DayStat)

/-- Dict lookup on the stats map. -/
def statsLookup : AggStats → Int → Option DayStat
  | [], _ => none
  | (k, st) :: rest, d => if k = d then some st else statsLookup rest d

/-- The loop body's update of one `DayStat`: increment the count and add
the event's type label to the set when the label is truthy. -/
def bumpStat (st : DayStat) (ty : Option String) : DayStat :=
  { count := st.count + 1
    types := if truthyS ty then insert (ty.getD "") st.types else st.types }

/-- Dict update for one event: create the `{"count": 0, "types": set()}`
entry on first use of the date, then apply `bumpStat`. -/
def statsBump : AggStats → Int → Option String → AggStats
  | [], d, ty => [(d, bumpStat ⟨0, ∅⟩ ty)]
  | (k, st) :: rest, d, ty =>
    if k = d then (k, bumpStat st ty) :: rest
    else (k, st) :: statsBump rest d ty

/-- The loop of `aggregate_stats` over the item list, threading the
`stats` dict. A record whose `time` field is falsy is skipped; a record
whose timestamp does not parse raises (`Except.error`), as
`dt.datetime.fromisoformat` does in `parse_time`; a record whose local
date falls outside `[start_date, end_date]` is skipped; otherwise the
date's entry is bumped. -/
def aggGo (parse : String → Option Int) (s e : Int) :
    List Item → AggStats → Except Unit AggStats
  | [], acc => .ok acc
  | it :: rest, acc =>
    if truthyS it.time then
      match parse (it.time.getD "") with
      | none => .error ()
      | some d =>
        if d < s ∨ e < d then aggGo parse s e rest acc
        else aggGo parse s e rest (statsBump acc d it.type)
    else aggGo parse s e rest acc

/-- Embedding of `aggregate_stats` (src lines 221-241), starting from the
empty dict. -/
def aggregate_stats (parse : String → Option Int) (items : List Item)
    (s e : Int) : Except Unit AggStats :=
  aggGo parse s e items []

/-! ### Pagination (`collect_activity`, src lines 173-218) -/

/-- One decoded response of the activity endpoint: the
`recentActivity` batch (`None` or missing becomes `[]`, following
`data.get("recentActivity", []) or []`) and the next-page `cursor`. -/
structure Page where
  recentActivity : List Entry
  cursor : Option String

/-- The dict entries of a batch, in feed order (the records the inner
loop actually processes after the `isinstance` check). -/
def dictEntries : List Entry → List Item
  | [] => []
  | .dict it :: rest => it :: dictEntries rest
  | .nonDict :: rest => dictEntries rest

/-- The inner per-batch loop (src lines 195-202): skip non-dicts, skip a
record whose `dedupe_key` is already in `seen`, otherwise add its key to
`seen` and append the record. Returns the grown `seen` set and the newly
appended records, in order. -/
def processBatch : List Entry → List String → List String × List Item
  | [], seen => (seen, [])
  | .nonDict :: rest, seen => processBatch rest seen
  | .dict it :: rest, seen =>
    if dedupe_key it ∈ seen then processBatch rest seen
    else
      let next := processBatch rest (dedupe_key it :: seen)
      (next.1, it :: next.2)

/-- Result of a run of the pagination loop: the returned item list (or a
propagated exception), the number of page requests issued, and the
stream of dict records processed, duplicates included (a ghost trace
used to state the dedupe property). -/
structure CollectResult where
  result : Except Unit (List Item)
  requests : Nat
  trace : List Item

/-- Embedding of the `for _ in range(max_requests)` loop of
`collect_activity` (src lines 189-217), with the fuel argument playing
the role of the remaining range iterations. Per iteration: fetch the
page at the current cursor; stop on an empty batch; dedupe the batch
into the output; stop when the next cursor is falsy or already seen;
otherwise record the cursor and check the last record of the batch:
a non-dict last record raises (`batch[-1].get` on a non-dict), a truthy
unparsable timestamp raises in `parse_time`, and a parsed date before
`earliest` stops the loop. The sleep is behaviourally irrelevant. -/
def collectLoop (feed : Option String → Page) (parse : String → Option Int)
    (earliest : Int) :
    Nat → Option String → List String → List String → List Item →
    CollectResult
  | 0, _, _, _, items => ⟨.ok items, 0, []⟩
  | fuel + 1, cursor, seen, seenCursors, items =>
    let data := feed cursor
    let batch := data.recentActivity
    if batch.isEmpty then ⟨.ok items, 1, []⟩
    else
      let next := processBatch batch seen
      let items' := items ++ next.2
      match data.cursor with
      | none => ⟨.ok items', 1, dictEntries batch⟩
      | some c =>
        if c = "" ∨ c ∈ seenCursors then ⟨.ok items', 1, dictEntries batch⟩
        else
          match batch.getLast? with
          | some (.dict last) =>
            if truthyS last.time then
              match parse (last.time.getD "") with
              | none => ⟨.error (), 1, dictEntries batch⟩
              | some d =>
                if d < earliest then ⟨.ok items', 1, dictEntries batch⟩
                else
                  let r := collectLoop feed parse earliest fuel (some c)
                    next.1 (c :: seenCursors) items'
                  ⟨r.result, r.requests + 1, dictEntries batch ++ r.trace⟩
            else
              let r := collectLoop feed parse earliest fuel (some c)
                next.1 (c :: seenCursors) items'
              ⟨r.result, r.requests + 1, dictEntries batch ++ r.trace⟩
          | _ => ⟨.error (), 1, dictEntries batch⟩

/-- Embedding of `collect_activity` (src lines 173-218): the window's
earliest local date is `today - (days - 1)` and the loop starts with no
cursor and empty state. -/
def collect_activity (feed : Option String → Page)
    (parse : String → Option Int) (today days : Int)
    (max_requests : Nat) : CollectResult :=
  collectLoop feed parse (today - (days - 1)) max_requests none [] [] []

/-! ### Grid layout (`grid_start_date`, src lines 246-252, and the
`day_index` helper of `render_svg`, src lines 309-312) -/

inductive WeekStart where
  | sunday
  | monday
  deriving DecidableEq, Repr

/-- Python `date.weekday()` on an ordinal date: Monday = 0 .. Sunday = 6. -/
def pyWeekday (d : Int) : Int := (d - 1) % 7

/-- Embedding of `grid_start_date` (src lines 246-252): walk the start
date back by the week-start offset. -/
def grid_start_date (start : Int) (ws : WeekStart) : Int :=
  match ws with
  | .sunday => start - (pyWeekday start + 1) % 7
  | .monday => start - pyWeekday start

/-- Embedding of the `day_index` helper inside `render_svg`
(src lines 309-312): row index of a date under the week-start
convention. -/
def day_index (d : Int) (ws : WeekStart) : Int :=
  match ws with
  | .sunday => (pyWeekday d + 1) % 7
  | .monday => pyWeekday d

/-- The `weeks` computation of `render_svg` (src line 280):
`int(math.ceil(total_days / 7))` with `total_days = end - grid_start + 1`,
modelled with exact division over `ℚ`. -/
def weeks_count (gs e : Int) : Int :=
  ⌈((e - gs + 1 : Int) : ℚ) / 7⌉

/-- The weekday index (Python convention) that is row 0 of the grid. -/
def weekStartDay : WeekStart → Int
  | .sunday => 6
  | .monday => 0

/-! ### Color binning (`color_index`, src lines 255-261) -/

/-- Embedding of `color_index` (src lines 255-261), with the float
expression `math.ceil(count / max_count * (levels - 1))` modelled by the
exact rational ceiling. -/
def color_index (count max_count levels : Int) : Int :=
  if count ≤ 0 ∨ max_count ≤ 0 then 0
  else
    max 1 (min (levels - 1)
      ⌈((count : ℚ) / (max_count : ℚ)) * ((levels : ℚ) - 1)⌉)

/-! ### Spec-side counting functions

Used to characterise the aggregate extensionally: an event qualifies for
a date `d` when its `time` field is truthy, parses to `d`, and `d` lies
in the closed window `[s, e]`. -/

/-- Whether one item contributes to date `d` under window `[s, e]`. -/
def qualifies (parse : String → Option Int) (s e d : Int) (it : Item) : Bool :=
  truthyS it.time && decide (parse (it.time.getD "") = some d) &&
    decide (s ≤ d) && decide (d ≤ e)

/-- The qualifying items of a list for date `d`. -/
def qualItems (parse : String → Option Int) (s e d : Int)
    (items : List Item) : List Item :=
  items.filter (qualifies parse s e d)

/-- How many events of the list qualify for date `d`. -/
def qualCount (parse : String → Option Int) (s e d : Int)
    (items : List Item) : Nat :=
  (qualItems parse s e d items).length

/-- The set of truthy type labels among the qualifying events of `d`. -/
def qualTypes (parse : String → Option Int) (s e d : Int)
    (items : List Item) : Finset String :=
  (((qualItems parse s e d items).filter (fun it => truthyS it.type)).map
    (fun it => it.type.getD "")).toFinset

/-- Merge `n` further qualifying events with type set `ts` into an
optional existing day entry; with `n = 0` the entry is untouched (and in
particular not created). -/
def mergeStat (o : Option DayStat) (n : Nat) (ts : Finset String) :
    Option DayStat :=
  if n = 0 then o
  else some ⟨(o.getD ⟨0, ∅⟩).count + n, (o.getD ⟨0, ∅⟩).types ∪ ts⟩

/-- Reference first-occurrence dedupe on a flat item stream: keep an
item iff its `dedupe_key` is not in `seen` and has not occurred earlier
in the stream. Identical recursion shape to the per-batch loop, defined
on the flat stream so that the pagination theorem can state that the
page structure is irrelevant to the dedupe result. -/
def itemDedupe (seen : List String) : List Item → List String × List Item
  | [] => (seen, [])
  | it :: rest =>
    if dedupe_key it ∈ seen then itemDedupe seen rest
    else
      let next := itemDedupe (dedupe_key it :: seen) rest
      (next.1, it :: next.2)

/-! ### Concrete demonstration inputs

The parser parameter is abstract in all theorems; `parseDemo` is one
concrete instantiation (an explicit table of a few timestamp strings and
their local ordinal dates, everything else failing to parse) used by the
closed witness statements. -/

def parseDemo : String → Option Int := fun t =>
  if t = "2024-04-10T01:00:00Z" then some 100
  else if t = "2024-04-05T01:00:00Z" then some 95
  else if t = "2024-04-15T01:00:00Z" then some 105
  else if t = "2024-04-04T01:00:00Z" then some 94
  else none

def itemGoodTime : Item :=
  ⟨none, some "2024-04-10T01:00:00Z", some "discussion", none, none⟩

def itemBadTime : Item :=
  ⟨none, some "not-a-timestamp", some "discussion", none, none⟩

def itemNoTime : Item := ⟨none, none, some "discussion", none, none⟩

def itemsDemo : List Item :=
  [⟨none, some "2024-04-10T01:00:00Z", some "discussion", none, none⟩,
   ⟨none, some "2024-04-10T01:00:00Z", some "like", none, none⟩,
   ⟨none, some "2024-04-05T01:00:00Z", some "upvote", none, none⟩,
   ⟨none, some "2024-04-04T01:00:00Z", some "discussion", none, none⟩,
   ⟨none, none, some "discussion", none, none⟩]

/-- The value of `aggregate_stats parseDemo itemsDemo 95 105`. -/
def mDemo : AggStats :=
  [(100, ⟨2, insert "like" (insert "discussion" ∅)⟩),
   (95, ⟨1, insert "upvote" ∅⟩)]

/-- The value of `aggregate_stats parseDemo itemsDemo.reverse 95 105`. -/
def mDemoRev : AggStats :=
  [(95, ⟨1, insert "upvote" ∅⟩),
   (100, ⟨2, insert "discussion" (insert "like" ∅)⟩)]

def itA : Item := ⟨some "e1", none, some "discussion", none, none⟩

def itB : Item := ⟨some "e2", none, some "like", none, none⟩

def itC : Item :=
  ⟨none, some "2024-04-05T01:00:00Z", some "upvote", some "r1", some "model"⟩

/-- A two-page feed whose second page overlaps the first (`itB` appears
on both pages). -/
def feedDemo : Option String → Page := fun c =>
  if c = some "c1" then ⟨[.dict itB, .dict itC], none⟩
  else ⟨[.dict itA, .dict itB], some "c1"⟩

/-- A misbehaving feed that returns the same next-cursor forever. -/
def feedLoopDemo : Option String → Page := fun _ =>
  ⟨[.dict itA], some "c1"⟩

/-- A feed whose page's oldest record dates to ordinal 95. -/
def feedOldDemo : Option String → Page := fun _ =>
  ⟨[.dict itC], some "c9"⟩

/-! ### Helper lemmas -/

/-- Bridge between the exact rational ceiling and Euclidean integer
division by 7. -/
lemma ceil_div_seven (n : Int) : ⌈((n : ℚ)) / 7⌉ = -((-n) / 7) := by
  rw [show ((n : ℚ)) / 7 = -(((-n : ℤ) : ℚ) / ((7 : ℕ) : ℚ)) by push_cast; ring]
  rw [Int.ceil_neg, Rat.floor_intCast_div_natCast]
  norm_num

/-- The week count as an integer ceiling division. -/
lemma weeks_count_eq (gs e : Int) : weeks_count gs e = (e - gs + 1 + 6) / 7 := by
  unfold weeks_count
  rw [ceil_div_seven]
  omega

lemma color_index_nonneg (c m L : Int) : 0 ≤ color_index c m L := by
  unfold color_index
  split
  · exact le_refl 0
  · exact le_trans (by norm_num) (le_max_left 1 _)

lemma color_index_of_pos (c m L : Int) (hc : 0 < c) (hm : 0 < m) :
    color_index c m L =
      max 1 (min (L - 1) ⌈((c : ℚ) / (m : ℚ)) * ((L : ℚ) - 1)⌉) := by
  have h : ¬ (c ≤ 0 ∨ m ≤ 0) := by push_neg; exact ⟨hc, hm⟩
  simp [color_index, h]

/-! ### C6: color monotonicity -/

/-- C6: for fixed `max_count` and `levels`, `color_index` is monotone in
the count; `color_index 0 _ _ = 0`; and a count of 1 maps to level at
least 1 whenever `max_count ≥ 1`. -/
theorem color_index_monotone_spec (m L : Int) :
    (∀ c1 c2 : Int, c1 ≤ c2 → color_index c1 m L ≤ color_index c2 m L) ∧
    color_index 0 m L = 0 ∧
    (1 ≤ m → 1 ≤ color_index 1 m L) := by
  refine ⟨?_, by simp [color_index], ?_⟩
  · intro c1 c2 h12
    by_cases h1 : c1 ≤ 0 ∨ m ≤ 0
    · have hz : color_index c1 m L = 0 := by simp [color_index, h1]
      rw [hz]
      exact color_index_nonneg c2 m L
    · push_neg at h1
      obtain ⟨hc1, hm⟩ := h1
      have hc2 : 0 < c2 := lt_of_lt_of_le hc1 h12
      rw [color_index_of_pos c1 m L hc1 hm, color_index_of_pos c2 m L hc2 hm]
      rcases le_or_lt 0 (L - 1) with hL | hL
      · refine max_le_max (le_refl 1) (min_le_min (le_refl (L - 1)) ?_)
        apply Int.ceil_le_ceil
        apply mul_le_mul_of_nonneg_right
        · exact div_le_div_of_nonneg_right (by exact_mod_cast h12)
            (by exact_mod_cast hm.le)
        · have : ((0 : ℤ) : ℚ) ≤ ((L - 1 : ℤ) : ℚ) := by exact_mod_cast hL
          push_cast at this
          linarith
      · have e1 : ∀ q : Int, max 1 (min (L - 1) q) = 1 := fun q =>
          max_eq_left (le_trans (min_le_left _ _) (by omega))
        rw [e1, e1]
  · intro hm
    rw [color_index_of_pos 1 m L one_pos (by omega)]
    exact le_max_left 1 _

/-- Witness for C6 at `max_count = 3`, `levels = 5`, counts 1 ≤ 2. -/
theorem color_index_monotone_spec_witness :
    color_index 1 3 5 ≤ color_index 2 3 5 ∧ color_index 0 3 5 = 0 ∧
    1 ≤ color_index 1 3 5 :=
  ⟨(color_index_monotone_spec 3 5).1 1 2 (by decide),
   (color_index_monotone_spec 3 5).2.1,
   (color_index_monotone_spec 3 5).2.2 (by decide)⟩

/-! ### C7: color index range -/

/-- C7 counterexample: with `levels = 1` the code returns
`max(1, min(0, ceil(1*0))) = 1`, which is outside the claimed range
`[0, levels - 1] = [0, 0]`. -/
theorem color_index_range_counterexample :
    color_index 1 1 1 = 1 ∧ ¬ color_index 1 1 1 ≤ (1 : Int) - 1 := by
  have h : color_index 1 1 1 = 1 := by
    rw [color_index_of_pos 1 1 1 one_pos one_pos]
    norm_num
  exact ⟨h, by rw [h]; norm_num⟩

/-- C7 amended: for `levels ≥ 2` (the renderer asserts palettes of at
least 2 colors), `color_index` lands in `[0, levels - 1]` and returns 0
whenever the count or the maximum is nonpositive. -/
theorem color_index_range_amended (c m L : Int) (hL : 2 ≤ L) :
    0 ≤ color_index c m L ∧ color_index c m L ≤ L - 1 ∧
    ((c ≤ 0 ∨ m ≤ 0) → color_index c m L = 0) := by
  refine ⟨color_index_nonneg c m L, ?_, fun h => by simp [color_index, h]⟩
  by_cases h : c ≤ 0 ∨ m ≤ 0
  · have hz : color_index c m L = 0 := by simp [color_index, h]
    rw [hz]
    omega
  · push_neg at h
    rw [color_index_of_pos c m L h.1 h.2]
    exact max_le (by omega) (min_le_left _ _)

/-- Witness for the amended C7 at `count = 7`, `max_count = 3`,
`levels = 5`. -/
theorem color_index_range_amended_witness :
    (2 : Int) ≤ 5 ∧ (0 ≤ color_index 7 3 5 ∧ color_index 7 3 5 ≤ 5 - 1 ∧
      (((7 : Int) ≤ 0 ∨ (3 : Int) ≤ 0) → color_index 7 3 5 = 0)) :=
  ⟨by decide, color_index_range_amended 7 3 5 (by decide)⟩

/-! ### C5: grid layout -/

/-- C5: `grid_start_date` is the most recent date on or before `start`
whose weekday is the configured week-start day (at distance at most 6),
and every date in `[start, e]` gets an in-bounds, distinct
`(week, row)` cell with `week = (d - gridStart) / 7` below the week
count and `row = day_index` in `[0, 6]`, row 0 being the week-start
day. -/
theorem grid_layout_cells (start e : Int) (ws : WeekStart) (hse : start ≤ e) :
    grid_start_date start ws ≤ start ∧
    start - grid_start_date start ws ≤ 6 ∧
    pyWeekday (grid_start_date start ws) = weekStartDay ws ∧
    (∀ d : Int, grid_start_date start ws < d → d ≤ start →
      pyWeekday d ≠ weekStartDay ws) ∧
    (∀ d : Int, start ≤ d → d ≤ e →
      0 ≤ (d - grid_start_date start ws) / 7 ∧
      (d - grid_start_date start ws) / 7 ≤
        weeks_count (grid_start_date start ws) e - 1 ∧
      0 ≤ day_index d ws ∧ day_index d ws ≤ 6 ∧
      (day_index d ws = 0 ↔ pyWeekday d = weekStartDay ws)) ∧
    (∀ d1 d2 : Int, start ≤ d1 → d1 ≤ e → start ≤ d2 → d2 ≤ e →
      (d1 - grid_start_date start ws) / 7 =
        (d2 - grid_start_date start ws) / 7 →
      day_index d1 ws = day_index d2 ws → d1 = d2) := by
  cases ws
  all_goals
    simp only [grid_start_date, day_index, pyWeekday, weekStartDay,
      weeks_count_eq, and_true]
    exact ⟨by omega, by omega, by omega, fun d h1 h2 => by omega,
      fun d h1 h2 => by omega, fun d1 d2 h1 h2 h3 h4 h5 h6 => by omega⟩

/-- Witness for C5: a 10-day window (ordinals 10 .. 19) with a Monday
week start; checks the grid-start facts and the cell bounds at day 12
and distinctness of days 12 and 13. -/
theorem grid_layout_cells_witness :
    (10 : Int) ≤ 19 ∧
    grid_start_date 10 .monday ≤ 10 ∧
    (10 : Int) - grid_start_date 10 .monday ≤ 6 ∧
    pyWeekday (grid_start_date 10 .monday) = weekStartDay .monday ∧
    (0 ≤ ((12 : Int) - grid_start_date 10 .monday) / 7 ∧
      ((12 : Int) - grid_start_date 10 .monday) / 7 ≤
        weeks_count (grid_start_date 10 .monday) 19 - 1 ∧
      0 ≤ day_index 12 .monday ∧ day_index 12 .monday ≤ 6 ∧
      (day_index 12 .monday = 0 ↔ pyWeekday 12 = weekStartDay .monday)) ∧
    (((12 : Int) - grid_start_date 10 .monday) / 7 =
        ((13 : Int) - grid_start_date 10 .monday) / 7 →
      day_index 12 .monday = day_index 13 .monday → (12 : Int) = 13) := by
  have h := grid_layout_cells 10 19 .monday (by decide)
  exact ⟨by decide, h.1, h.2.1, h.2.2.1,
    h.2.2.2.2.1 12 (by decide) (by decide),
    h.2.2.2.2.2 12 13 (by decide) (by decide) (by decide) (by decide)⟩

/-! ### Aggregation lemmas -/

lemma statsLookup_statsBump (acc : AggStats) (d d' : Int) (ty : Option String) :
    statsLookup (statsBump acc d ty) d' =
      if d' = d then some (bumpStat ((statsLookup acc d).getD ⟨0, ∅⟩) ty)
      else statsLookup acc d' := by
  induction acc with
  | nil =>
    by_cases h : d' = d
    · subst h
      simp [statsBump, statsLookup]
    · simp [statsBump, statsLookup, h, Ne.symm h]
  | cons p rest ih =>
    obtain ⟨k, st⟩ := p
    by_cases hk : k = d
    · subst hk
      by_cases h : d' = k
      · subst h
        simp [statsBump, statsLookup]
      · simp [statsBump, statsLookup, h, Ne.symm h]
    · by_cases h : d' = k
      · subst h
        simp [statsBump, statsLookup, hk]
      · simp [statsBump, statsLookup, hk, h, Ne.symm h, ih]

lemma insert_union_comm (a : String) (s t : Finset String) :
    insert a s ∪ t = s ∪ insert a t := by
  ext x
  simp only [Finset.mem_union, Finset.mem_insert]
  tauto

lemma union_singleton_eq_insert (a : String) (s : Finset String) :
    s ∪ {a} = insert a s := by
  ext x
  simp only [Finset.mem_union, Finset.mem_insert, Finset.mem_singleton]
  tauto

lemma qualTypes_eq_empty (parse : String → Option Int) (s e d : Int)
    (items : List Item) (h : qualCount parse s e d items = 0) :
    qualTypes parse s e d items = ∅ := by
  unfold qualCount at h
  unfold qualTypes
  rw [List.length_eq_zero] at h
  rw [h]
  simp

lemma mergeStat_bump (o : Option DayStat) (ty : Option String) (n : Nat)
    (ts : Finset String) (hts : n = 0 → ts = ∅) :
    mergeStat (some (bumpStat (o.getD ⟨0, ∅⟩) ty)) n ts =
      mergeStat o (n + 1)
        (if truthyS ty then insert (ty.getD "") ts else ts) := by
  rcases Nat.eq_zero_or_pos n with hn | hn
  · subst hn
    rw [hts rfl]
    cases htr : truthyS ty <;>
      simp [mergeStat, bumpStat, htr, union_singleton_eq_insert]
  · have hn' : n ≠ 0 := Nat.pos_iff_ne_zero.mp hn
    cases htr : truthyS ty <;>
      simp [mergeStat, bumpStat, htr, hn', insert_union_comm] <;>
      omega

lemma aggGo_lookup (parse : String → Option Int) (s e : Int)
    (items : List Item) :
    ∀ (acc m : AggStats), aggGo parse s e items acc = .ok m →
      ∀ d : Int, statsLookup m d =
        mergeStat (statsLookup acc d) (qualCount parse s e d items)
          (qualTypes parse s e d items) := by
  induction items with
  | nil =>
    intro acc m hm d
    simp only [aggGo, Except.ok.injEq] at hm
    subst hm
    simp [qualCount, qualItems, qualTypes, mergeStat]
  | cons it rest ih =>
    intro acc m hm d
    cases htime : truthyS it.time with
    | false =>
      simp only [aggGo] at hm
      rw [if_neg (by simp [htime])] at hm
      rw [ih acc m hm d]
      have hq : qualifies parse s e d it = false := by
        simp [qualifies, htime]
      simp [qualCount, qualItems, qualTypes, List.filter_cons, hq]
    | true =>
      cases hparse : parse (it.time.getD "") with
      | none =>
        simp [aggGo, htime, hparse] at hm
      | some d0 =>
        by_cases hwin : d0 < s ∨ e < d0
        · have hm' : aggGo parse s e rest acc = .ok m := by
            simpa [aggGo, htime, hparse, hwin] using hm
          rw [ih acc m hm' d]
          have hq : qualifies parse s e d it = false := by
            by_cases hd : d = d0
            · subst hd
              simp [qualifies, htime, hparse]
              omega
            · simp [qualifies, hparse, Ne.symm hd]
          simp [qualCount, qualItems, qualTypes, List.filter_cons, hq]
        · have hm' : aggGo parse s e rest (statsBump acc d0 it.type) = .ok m := by
            simpa [aggGo, htime, hparse, hwin] using hm
          rw [ih (statsBump acc d0 it.type) m hm' d, statsLookup_statsBump]
          by_cases hd : d = d0
          · subst hd
            rw [if_pos rfl]
            have hq : qualifies parse s e d it = true := by
              simp [qualifies, htime, hparse]
              omega
            have hcount : qualCount parse s e d (it :: rest) =
                qualCount parse s e d rest + 1 := by
              simp [qualCount, qualItems, List.filter_cons, hq]
            have htypes : qualTypes parse s e d (it :: rest) =
                if truthyS it.type then
                  insert (it.type.getD "") (qualTypes parse s e d rest)
                else qualTypes parse s e d rest := by
              cases htr : truthyS it.type <;>
                simp [qualTypes, qualItems, List.filter_cons, hq, htr]
            rw [hcount, htypes]
            exact mergeStat_bump (statsLookup acc d) it.type _ _
              (qualTypes_eq_empty parse s e d rest)
          · rw [if_neg hd]
            have hq : qualifies parse s e d it = false := by
              simp [qualifies, hparse, Ne.symm hd]
            simp [qualCount, qualItems, qualTypes, List.filter_cons, hq]

lemma aggregate_lookup (parse : String → Option Int) (items : List Item)
    (s e : Int) (m : AggStats)
    (hm : aggregate_stats parse items s e = .ok m) (d : Int) :
    statsLookup m d =
      mergeStat none (qualCount parse s e d items)
        (qualTypes parse s e d items) := by
  have h := aggGo_lookup parse s e items [] m hm d
  simpa [statsLookup] using h

lemma qualifies_eq_false_of_outside (parse : String → Option Int)
    (s e d : Int) (it : Item) (hd : d < s ∨ e < d) :
    qualifies parse s e d it = false := by
  unfold qualifies
  rcases hd with hd | hd
  · have h1 : decide (s ≤ d) = false := decide_eq_false (by omega)
    rw [h1]
    simp
  · have h1 : decide (d ≤ e) = false := decide_eq_false (by omega)
    rw [h1]
    simp

lemma qualCount_eq_zero_of_outside (parse : String → Option Int)
    (s e d : Int) (items : List Item) (hd : d < s ∨ e < d) :
    qualCount parse s e d items = 0 := by
  induction items with
  | nil => rfl
  | cons it rest ih =>
    simp only [qualCount, qualItems, List.filter_cons,
      qualifies_eq_false_of_outside parse s e d it hd] at ih ⊢
    simpa using ih

lemma qualTypes_card_le (parse : String → Option Int) (s e d : Int)
    (items : List Item) :
    (qualTypes parse s e d items).card ≤ qualCount parse s e d items := by
  unfold qualTypes qualCount
  calc (((qualItems parse s e d items).filter
          (fun it => truthyS it.type)).map
            (fun it => it.type.getD "")).toFinset.card
      ≤ (((qualItems parse s e d items).filter
          (fun it => truthyS it.type)).map (fun it => it.type.getD "")).length :=
        List.toFinset_card_le _
    _ = ((qualItems parse s e d items).filter
          (fun it => truthyS it.type)).length := List.length_map _ _
    _ ≤ (qualItems parse s e d items).length := List.length_filter_le _ _

/-! ### C2: window exactness of the aggregate -/

/-- C2: for every completed aggregation over a window `[s, e]`, the
returned map at any date `d` holds exactly the events whose truthy
timestamp parses to `d` with `s ≤ d ≤ e` (so the boundary dates are
included and strictly-outside dates contribute nothing); a date strictly
outside the window has no entry; every entry has at least one qualifying
event; and an event with a falsy (absent or empty) timestamp never
affects the result. -/
theorem aggregate_window_boundaries (parse : String → Option Int)
    (items : List Item) (s e : Int) (hse : s ≤ e) (m : AggStats)
    (hm : aggregate_stats parse items s e = .ok m) :
    (∀ d : Int, statsLookup m d =
      mergeStat none (qualCount parse s e d items)
        (qualTypes parse s e d items)) ∧
    (∀ d : Int, d < s ∨ e < d → statsLookup m d = none) ∧
    (∀ (d : Int) (st : DayStat), statsLookup m d = some st → 1 ≤ st.count) ∧
    (∀ (it : Item) (l : List Item), truthyS it.time = false →
      aggregate_stats parse (it :: l) s e = aggregate_stats parse l s e) := by
  refine ⟨fun d => aggregate_lookup parse items s e m hm d, ?_, ?_, ?_⟩
  · intro d hd
    rw [aggregate_lookup parse items s e m hm d,
      qualCount_eq_zero_of_outside parse s e d items hd]
    simp [mergeStat]
  · intro d st hst
    rw [aggregate_lookup parse items s e m hm d] at hst
    by_cases h0 : qualCount parse s e d items = 0
    · rw [h0] at hst
      simp [mergeStat] at hst
    · simp [mergeStat, h0] at hst
      subst hst
      simpa using Nat.one_le_iff_ne_zero.mpr h0
  · intro it l h
    simp [aggregate_stats, aggGo, h]

/-- Witness for C2 on `itemsDemo` over window `[95, 105]`: the boundary
date 95 is characterised, the outside date 94 has no entry, the 100
entry has a positive count, and a record with no timestamp is skipped. -/
theorem aggregate_window_boundaries_witness :
    (95 : Int) ≤ 105 ∧
    statsLookup mDemo 95 =
      mergeStat none (qualCount parseDemo 95 105 95 itemsDemo)
        (qualTypes parseDemo 95 105 95 itemsDemo) ∧
    statsLookup mDemo 94 = none ∧
    1 ≤ (⟨2, insert "like" (insert "discussion" ∅)⟩ : DayStat).count ∧
    aggregate_stats parseDemo (itemNoTime :: [itemGoodTime]) 95 105 =
      aggregate_stats parseDemo [itemGoodTime] 95 105 := by
  have h := aggregate_window_boundaries parseDemo itemsDemo 95 105
    (by decide) mDemo rfl
  exact ⟨by decide, h.1 95, h.2.1 94 (by decide),
    h.2.2.1 100 _ rfl, h.2.2.2 itemNoTime [itemGoodTime] rfl⟩

/-! ### C3: malformed timestamps abort aggregation -/

/-- C3 (code behaviour at the failing input): `aggregate_stats` has no
recovery around `parse_time`, so a record whose timestamp string does
not parse (here `"not-a-timestamp"`) raises and aborts the whole
aggregation instead of being skipped; the remaining well-formed record
alone aggregates fine. The spec requires the bad record to be skipped
and aggregation to continue. -/
theorem aggregate_malformed_aborts :
    aggregate_stats parseDemo [itemBadTime, itemGoodTime] 95 105 =
      .error () ∧
    aggregate_stats parseDemo [itemGoodTime] 95 105 =
      .ok [(100, ⟨1, insert "discussion" ∅⟩)] :=
  ⟨rfl, rfl⟩

/-! ### C8: order independence and idempotence of the aggregate -/

/-- C8: aggregating a permutation of an event list over the same window
yields an equal map (same entries at every date), and re-running the
aggregation on the same input yields the same result. -/
theorem aggregate_perm_invariant (parse : String → Option Int)
    (l1 l2 : List Item) (s e : Int) (hperm : l1.Perm l2) (m1 m2 : AggStats)
    (h1 : aggregate_stats parse l1 s e = .ok m1)
    (h2 : aggregate_stats parse l2 s e = .ok m2) :
    (∀ d : Int, statsLookup m1 d = statsLookup m2 d) ∧
    aggregate_stats parse l1 s e = aggregate_stats parse l1 s e := by
  refine ⟨?_, rfl⟩
  intro d
  rw [aggregate_lookup parse l1 s e m1 h1 d,
    aggregate_lookup parse l2 s e m2 h2 d]
  have hc : qualCount parse s e d l1 = qualCount parse s e d l2 :=
    (hperm.filter _).length_eq
  have ht : qualTypes parse s e d l1 = qualTypes parse s e d l2 :=
    List.toFinset_eq_of_perm _ _ (((hperm.filter _).filter _).map _)
  rw [hc, ht]

/-- Witness for C8: `itemsDemo` against its reversal. -/
theorem aggregate_perm_invariant_witness :
    itemsDemo.Perm itemsDemo.reverse ∧
    statsLookup mDemo 100 = statsLookup mDemoRev 100 ∧
    aggregate_stats parseDemo itemsDemo 95 105 =
      aggregate_stats parseDemo itemsDemo 95 105 := by
  have hp : itemsDemo.Perm itemsDemo.reverse :=
    (List.reverse_perm itemsDemo).symm
  have h := aggregate_perm_invariant parseDemo itemsDemo itemsDemo.reverse
    95 105 hp mDemo mDemoRev rfl rfl
  exact ⟨hp, h.1 100, h.2⟩

/-! ### C10: DayStat invariant -/

/-- C10: every entry of a completed aggregate has count at least 1, and
its type set holds at most count-many distinct labels. -/
theorem aggregate_daystat_invariant (parse : String → Option Int)
    (items : List Item) (s e : Int) (m : AggStats)
    (hm : aggregate_stats parse items s e = .ok m) :
    ∀ (d : Int) (st : DayStat), statsLookup m d = some st →
      1 ≤ st.count ∧ st.types.card ≤ st.count := by
  intro d st hst
  rw [aggregate_lookup parse items s e m hm d] at hst
  by_cases h0 : qualCount parse s e d items = 0
  · rw [h0] at hst
    simp [mergeStat] at hst
  · simp [mergeStat, h0] at hst
    subst hst
    constructor
    · simpa using Nat.one_le_iff_ne_zero.mpr h0
    · simpa using qualTypes_card_le parse s e d items

/-- Witness for C10 at the 100 entry of `mDemo`. -/
theorem aggregate_daystat_invariant_witness :
    1 ≤ (⟨2, insert "like" (insert "discussion" ∅)⟩ : DayStat).count ∧
    (⟨2, insert "like" (insert "discussion" ∅)⟩ : DayStat).types.card ≤
      (⟨2, insert "like" (insert "discussion" ∅)⟩ : DayStat).count :=
  aggregate_daystat_invariant parseDemo itemsDemo 95 105 mDemo rfl 100 _ rfl

/-! ### Pagination lemmas -/

lemma processBatch_eq_itemDedupe (batch : List Entry) :
    ∀ seen, processBatch batch seen = itemDedupe seen (dictEntries batch) := by
  induction batch with
  | nil =>
    intro seen
    rfl
  | cons a rest ih =>
    intro seen
    cases a with
    | nonDict => simpa [processBatch, dictEntries] using ih seen
    | dict it =>
      by_cases h : dedupe_key it ∈ seen <;>
        simp [processBatch, dictEntries, itemDedupe, h, ih]

lemma itemDedupe_append (l1 l2 : List Item) :
    ∀ seen, itemDedupe seen (l1 ++ l2) =
      ((itemDedupe (itemDedupe seen l1).1 l2).1,
       (itemDedupe seen l1).2 ++ (itemDedupe (itemDedupe seen l1).1 l2).2) := by
  induction l1 with
  | nil =>
    intro seen
    simp [itemDedupe]
  | cons it rest ih =>
    intro seen
    by_cases h : dedupe_key it ∈ seen <;> simp [itemDedupe, h, ih]

lemma itemDedupe_nodup (l : List Item) :
    ∀ seen : List String,
      ((itemDedupe seen l).2.map dedupe_key).Nodup ∧
      ∀ k : String, k ∈ (itemDedupe seen l).2.map dedupe_key → k ∉ seen := by
  induction l with
  | nil =>
    intro seen
    simp [itemDedupe]
  | cons it rest ih =>
    intro seen
    by_cases h : dedupe_key it ∈ seen
    · simpa [itemDedupe, h] using ih seen
    · have ihs := ih (dedupe_key it :: seen)
      simp only [itemDedupe, h, if_false]
      constructor
      · simp only [List.map_cons, List.nodup_cons]
        constructor
        · intro hmem
          exact (ihs.2 _ hmem) (by simp)
        · exact ihs.1
      · intro k hk
        simp only [List.map_cons, List.mem_cons] at hk
        rcases hk with rfl | hk'
        · exact h
        · intro hks
          exact (ihs.2 k hk') (by simp [hks])

lemma collectLoop_requests_le (feed : Option String → Page)
    (parse : String → Option Int) (earliest : Int) :
    ∀ (fuel : Nat) (cursor : Option String) (seen seenCursors : List String)
      (items : List Item),
      (collectLoop feed parse earliest fuel cursor seen seenCursors
        items).requests ≤ fuel := by
  intro fuel
  induction fuel with
  | zero =>
    intro cursor seen sc items
    simp [collectLoop]
  | succ n ih =>
    intro cursor seen sc items
    rw [collectLoop]
    dsimp only
    split
    · simp
    · split
      · simp
      · split
        · simp
        · split
          · split
            · split
              · simp
              · split
                · simp
                · simpa using Nat.succ_le_succ (ih _ _ _ _)
            · simpa using Nat.succ_le_succ (ih _ _ _ _)
          · simp

lemma collectLoop_result_char (feed : Option String → Page)
    (parse : String → Option Int) (earliest : Int) :
    ∀ (fuel : Nat) (cursor : Option String) (seen seenCursors : List String)
      (items : List Item),
      (collectLoop feed parse earliest fuel cursor seen seenCursors
        items).result = .error () ∨
      (collectLoop feed parse earliest fuel cursor seen seenCursors
        items).result = .ok (items ++ (itemDedupe seen
          (collectLoop feed parse earliest fuel cursor seen seenCursors
            items).trace).2) := by
  intro fuel
  induction fuel with
  | zero =>
    intro cursor seen sc items
    right
    simp [collectLoop, itemDedupe]
  | succ n ih =>
    intro cursor seen sc items
    rw [collectLoop]
    dsimp only
    split
    · right
      simp [itemDedupe]
    · split
      · right
        dsimp only
        rw [processBatch_eq_itemDedupe]
      · split
        · right
          dsimp only
          rw [processBatch_eq_itemDedupe]
        · split
          · split
            · split
              · left
                rfl
              · split
                · right
                  dsimp only
                  rw [processBatch_eq_itemDedupe]
                · rcases ih (some _)
                    (processBatch (feed cursor).recentActivity seen).1 (_ :: sc)
                    (items ++ (processBatch (feed cursor).recentActivity seen).2)
                      with h | h
                  · left
                    exact h
                  · right
                    dsimp only
                    rw [h, itemDedupe_append, ← processBatch_eq_itemDedupe,
                      List.append_assoc]
            · rcases ih (some _)
                (processBatch (feed cursor).recentActivity seen).1 (_ :: sc)
                (items ++ (processBatch (feed cursor).recentActivity seen).2)
                  with h | h
              · left
                exact h
              · right
                dsimp only
                rw [h, itemDedupe_append, ← processBatch_eq_itemDedupe,
                  List.append_assoc]
          · left
            rfl

lemma collectLoop_stops_on_seen_cursor (feed : Option String → Page)
    (parse : String → Option Int) (earliest : Int) (fuel : Nat)
    (cursor : Option String) (seen seenCursors : List String)
    (items : List Item) (c : String)
    (hb : (feed cursor).recentActivity ≠ [])
    (hc : (feed cursor).cursor = some c)
    (hmem : c ∈ seenCursors) :
    (collectLoop feed parse earliest (fuel + 1) cursor seen seenCursors
      items).requests = 1 := by
  have hb' : ((feed cursor).recentActivity).isEmpty = false := by
    simpa [List.isEmpty_iff] using hb
  simp only [collectLoop, hb', Bool.false_eq_true, if_false, hc]
  rw [if_pos (Or.inr hmem)]

/-! ### C1: deduplication keeps the first-seen record -/

/-- C1: when `collect_activity` returns an item list, that list is the
first-occurrence-per-`dedupe_key` filter of the stream of records the
loop processed, in feed order (`itemDedupe [] trace`), and its keys are
pairwise distinct, so each `DedupeKey` occurs at most once and a
duplicate never displaces the record seen first. -/
theorem collect_dedupe_first_seen (feed : Option String → Page)
    (parse : String → Option Int) (today days : Int) (mr : Nat)
    (l : List Item)
    (h : (collect_activity feed parse today days mr).result = .ok l) :
    l = (itemDedupe []
        ((collect_activity feed parse today days mr).trace)).2 ∧
    (l.map dedupe_key).Nodup := by
  have hc := collectLoop_result_char feed parse (today - (days - 1)) mr
    none [] [] []
  unfold collect_activity at h ⊢
  rcases hc with hr | hr
  · rw [hr] at h
    exact absurd h (by simp)
  · rw [hr] at h
    injection h with h'
    have hl : l = (itemDedupe []
        (collectLoop feed parse (today - (days - 1)) mr
          none [] [] []).trace).2 := by
      simpa using h'.symm
    exact ⟨hl, hl ▸ (itemDedupe_nodup _ []).1⟩

/-- Witness for C1: a two-page feed in which `itB` appears on both
pages; the output keeps its first occurrence only. -/
theorem collect_dedupe_first_seen_witness :
    ([itA, itB, itC] : List Item) = (itemDedupe []
        ((collect_activity feedDemo parseDemo 100 10 5).trace)).2 ∧
    (([itA, itB, itC] : List Item).map dedupe_key).Nodup :=
  collect_dedupe_first_seen feedDemo parseDemo 100 10 5 [itA, itB, itC] rfl

/-! ### C4: request cap and repeated-cursor stop -/

/-- C4: the loop issues at most `max_requests` page requests on any
feed, and a page whose next-cursor is already in the seen-cursor set
ends the run right after that page: that iteration is the only request
the remaining loop makes. -/
theorem collect_request_cap_and_cursor_stop (feed : Option String → Page)
    (parse : String → Option Int) (today days : Int) (mr : Nat) :
    (collect_activity feed parse today days mr).requests ≤ mr ∧
    (∀ (earliest : Int) (fuel : Nat) (cursor : Option String)
        (seen seenCursors : List String) (items : List Item) (c : String),
        (feed cursor).recentActivity ≠ [] →
        (feed cursor).cursor = some c →
        c ∈ seenCursors →
        (collectLoop feed parse earliest (fuel + 1) cursor seen seenCursors
          items).requests = 1) :=
  ⟨collectLoop_requests_le feed parse _ mr none [] [] [],
   fun earliest fuel cursor seen sc items c hb hcur hmem =>
     collectLoop_stops_on_seen_cursor feed parse earliest fuel cursor seen sc
       items c hb hcur hmem⟩

/-- Witness for C4 on the always-repeating feed: the whole run stays
under the cap, and from a state that has already seen cursor `"c1"` the
next page is the last request. -/
theorem collect_request_cap_and_cursor_stop_witness :
    (collect_activity feedLoopDemo parseDemo 100 10 5).requests ≤ 5 ∧
    (collectLoop feedLoopDemo parseDemo 91 4 (some "c1") [] ["c1"]
      []).requests = 1 := by
  have h := collect_request_cap_and_cursor_stop feedLoopDemo parseDemo 100 10 5
  exact ⟨h.1, h.2 91 3 (some "c1") [] ["c1"] [] "c1" (by decide) rfl
    (by decide)⟩

/-! ### C9: early stop on a page older than the window -/

/-- C9: if the fetched page is nonempty, its oldest (last) record is a
dict with a truthy timestamp, and that timestamp's local date lies
strictly before the window's earliest date, then the loop stops after
processing that page: the iteration issues exactly one request whatever
fuel remains. -/
theorem collect_stops_when_page_older (feed : Option String → Page)
    (parse : String → Option Int) (earliest : Int) (fuel : Nat)
    (cursor : Option String) (seen seenCursors : List String)
    (items : List Item) (last : Item) (d : Int)
    (hb : (feed cursor).recentActivity ≠ [])
    (hl : ((feed cursor).recentActivity).getLast? = some (.dict last))
    (ht : truthyS last.time = true)
    (hp : parse (last.time.getD "") = some d)
    (hd : d < earliest) :
    (collectLoop feed parse earliest (fuel + 1) cursor seen seenCursors
      items).requests = 1 := by
  have hb' : ((feed cursor).recentActivity).isEmpty = false := by
    simpa [List.isEmpty_iff] using hb
  simp only [collectLoop, hb', Bool.false_eq_true, if_false]
  cases hcur : (feed cursor).cursor with
  | none => simp
  | some c =>
    dsimp only
    by_cases hcs : c = "" ∨ c ∈ seenCursors
    · rw [if_pos hcs]
    · rw [if_neg hcs]
      simp [hl, ht, hp, hd]

/-- Witness for C9: a page whose oldest record dates to ordinal 95,
against a window whose earliest date is 100. -/
theorem collect_stops_when_page_older_witness :
    (collectLoop feedOldDemo parseDemo 100 3 none [] [] []).requests = 1 :=
  collect_stops_when_page_older feedOldDemo parseDemo 100 2 none [] [] []
    itC 95 (by decide) rfl rfl rfl (by decide)

end HfGrass
